import Mathlib

/-!
Shallow embedding of `src/etl.py` (a PySpark ETL pipeline producing a star
schema: songs, artists, users, time, songplays) and proofs about it.

Record sets are modelled as Lean lists; Spark dataframe operators
(`filter`, `select`, `dropDuplicates`, `join`, `distinct`,
`monotonically_increasing_id`, `write.partitionBy.parquet`) are modelled by
the corresponding list operations, with the dataframe's documented
semantics.  The session time zone for `to_timestamp` / `to_date` /
`hour` / `extract` is pinned to UTC, as the specification requires.
-/

namespace Etl

/-! ## Proleptic Gregorian calendar arithmetic (UTC)

`civilFromDays` / `daysFromCivil` follow the standard civil-calendar
algorithms; `z` counts days since 1970-01-01.  All inputs of interest are
after the epoch, so `Nat` arithmetic suffices. -/

structure CivilDate where
  year : Nat
  month : Nat
  day : Nat
deriving DecidableEq

def isLeap (y : Nat) : Bool :=
  (y % 4 == 0 && y % 100 != 0) || y % 400 == 0

def civilFromDays (z : Nat) : CivilDate :=
  let z' := z + 719468
  let era := z' / 146097
  let doe := z' % 146097
  let yoe := (doe - doe / 1460 + doe / 36524 - doe / 146096) / 365
  let y := yoe + era * 400
  let doy := doe - (365 * yoe + yoe / 4 - yoe / 100)
  let mp := (5 * doy + 2) / 153
  let d := doy - (153 * mp + 2) / 5 + 1
  let m := if mp < 10 then mp + 3 else mp - 9
  { year := if m ≤ 2 then y + 1 else y, month := m, day := d }

def daysFromCivil (c : CivilDate) : Nat :=
  let y := if c.month ≤ 2 then c.year - 1 else c.year
  let era := y / 400
  let yoe := y % 400
  let doy := (153 * (if 2 < c.month then c.month - 3 else c.month + 9) + 2) / 5 + c.day - 1
  let doe := yoe * 365 + yoe / 4 - yoe / 100 + doy
  era * 146097 + doe - 719468

/-- ISO weekday of epoch day `z`: Monday = 1 .. Sunday = 7
(1970-01-01 was a Thursday). -/
def isoWeekday (z : Nat) : Nat := (z + 3) % 7 + 1

/-- Spark's `dayofweek` convention: Sunday = 1 .. Saturday = 7. -/
def sparkDayOfWeek (z : Nat) : Nat := (z + 4) % 7 + 1

def isoWeeksInYear (y : Nat) : Nat :=
  let jan1 := daysFromCivil ⟨y, 1, 1⟩
  if isoWeekday jan1 == 4 || (isLeap y && isoWeekday jan1 == 3) then 53 else 52

/-- Spark's `weekofyear`: ISO-8601 week of year of the date at epoch day `z`. -/
def weekOfYear (z : Nat) : Nat :=
  let c := civilFromDays z
  let doy := z - daysFromCivil ⟨c.year, 1, 1⟩ + 1
  let w := (doy + 10 - isoWeekday z) / 7
  if w == 0 then isoWeeksInYear (c.year - 1)
  else if isoWeeksInYear c.year < w then 1
  else w

/-- Hour of day (0-23) of an instant given in epoch seconds, UTC. -/
def hourOfInstant (s : Nat) : Nat := s % 86400 / 3600

/-- Casting a `date` to a `timestamp` (as Spark's `hour(dateCol)` implicitly
does) yields midnight of that date in the session zone. -/
def dateMidnightSecs (c : CivilDate) : Nat := daysFromCivil c * 86400

/-! ## Input record schemas

`LogRecord` carries the columns of the activity-log JSON that `etl.py`
reads (`page, userId, firstName, lastName, gender, level, ts, song,
artist, sessionId, location, userAgent`); `ts` is epoch milliseconds.
`SongRecord` carries the columns of the song-metadata JSON
(`song_id, title, artist_id, year, duration, artist_name,
artist_location, artist_latitude, artist_longitude`); the JSON's decimal
numbers are modelled as exact rationals, and nullable coordinates as
`Option`. -/

structure LogRecord where
  page : String
  userId : String
  firstName : String
  lastName : String
  gender : String
  level : String
  ts : Nat
  song : String
  artist : String
  sessionId : Int
  location : String
  userAgent : String
deriving DecidableEq

structure SongRecord where
  song_id : String
  title : String
  artist_id : String
  year : Int
  duration : Rat
  artist_name : String
  artist_location : String
  artist_latitude : Option Rat
  artist_longitude : Option Rat
deriving DecidableEq

/-! ## Spark operators used by the pipeline -/

/-- `dropDuplicates([k])`: keep one record per key.  Spark documents the
survivor as unspecified; the embedding realises the policy as
"first occurrence in the record set's order", one legitimate instance of
the documented non-determinism. -/
def dedupByKey {α κ : Type} [DecidableEq κ] (key : α → κ) : List α → List α
  | [] => []
  | x :: xs => x :: dedupByKey key (xs.filter fun y => decide (key y ≠ key x))
termination_by l => l.length
decreasing_by
  simp only [List.length_cons]
  exact Nat.lt_succ_of_le (List.length_filter_le _ _)

/-! ## process_song_data -/

structure SongRow where
  song_id : String
  title : String
  artist_id : String
  year : Int
  duration : Rat
deriving DecidableEq

structure ArtistRow where
  artist_id : String
  name : String
  location : String
  latitude : Option Rat
  longitude : Option Rat
deriving DecidableEq

/-- `df.select('song_id','title','artist_id','year','duration')` -/
def projSong (r : SongRecord) : SongRow :=
  ⟨r.song_id, r.title, r.artist_id, r.year, r.duration⟩

/-- `songs_table`: select the five song columns, then
`dropDuplicates(['song_id'])` (etl.py lines 49-55). -/
def songs_table (df : List SongRecord) : List SongRow :=
  dedupByKey SongRow.song_id (df.map projSong)

/-- `artists_table`: select the five artist columns,
`dropDuplicates(['artist_id'])`, then rename to target names
(etl.py lines 65-74). -/
def artists_table (df : List SongRecord) : List ArtistRow :=
  dedupByKey ArtistRow.artist_id
    (df.map fun r => ⟨r.artist_id, r.artist_name, r.artist_location,
                      r.artist_latitude, r.artist_longitude⟩)

/-! ## process_log_data -/

/-- `df.filter(df.page == 'NextSong')` (etl.py line 100). -/
def filterNextSong (df : List LogRecord) : List LogRecord :=
  df.filter fun r => decide (r.page = "NextSong")

structure UserRow where
  user_id : String
  first_name : String
  last_name : String
  gender : String
  level : String
deriving DecidableEq

/-- `users_table`: select the five user columns from the filtered events,
`dropDuplicates(['userId'])`, rename to snake case (etl.py lines 104-112). -/
def users_table (df : List LogRecord) : List UserRow :=
  dedupByKey UserRow.user_id
    ((filterNextSong df).map fun r =>
      ⟨r.userId, r.firstName, r.lastName, r.gender, r.level⟩)

/-- The converted `ts` column: `to_timestamp(df.ts/1000)` keeps the
fractional second, so the resulting timestamp still has millisecond
precision; the embedding represents it by its epoch-millisecond count,
i.e. the original `ts` value. -/
def tsTimestampMillis (r : LogRecord) : Nat := r.ts

/-- The `dt` column: `to_date(ts)`, the UTC calendar date of the instant. -/
def tsDate (r : LogRecord) : CivilDate := civilFromDays (r.ts / 1000 / 86400)

structure TimeRow where
  start_time : Nat
  dt : CivilDate
  hour : Nat
  day : Nat
  week : Nat
  month : Nat
  year : Nat
  weekday : Nat
deriving DecidableEq

/-- One `time_table` row (etl.py lines 129-137): `start_time` is the
converted timestamp (epoch milliseconds here), and the six derived
columns are all computed from the `dt` *date* column — in particular
`hour(df.dt)` casts the date to the midnight timestamp. -/
def mkTimeRow (r : LogRecord) : TimeRow :=
  let c := tsDate r
  { start_time := tsTimestampMillis r
    dt := c
    hour := hourOfInstant (dateMidnightSecs c)
    day := c.day
    week := weekOfYear (daysFromCivil c)
    month := c.month
    year := c.year
    weekday := sparkDayOfWeek (daysFromCivil c) }

/-- `time_table`: one row per retained (post-filter) event; no
deduplication anywhere on this path (etl.py lines 129-137). -/
def time_table (df : List LogRecord) : List TimeRow :=
  (filterNextSong df).map mkTimeRow

/-- The join predicate of etl.py line 148:
`(df.song == song_df.title) & (df.artist == song_df.artist_name)` —
exact, case-sensitive string equality. -/
def joinMatch (e : LogRecord) (s : SongRecord) : Prop :=
  e.song = s.title ∧ e.artist = s.artist_name

instance (e : LogRecord) (s : SongRecord) : Decidable (joinMatch e s) :=
  inferInstanceAs (Decidable (_ ∧ _))

/-- The catalog records matching a given event under the join predicate. -/
def matchingSongs (e : LogRecord) (songDf : List SongRecord) : List SongRecord :=
  songDf.filter fun s => decide (joinMatch e s)

/-- `df.join(song_df, (df.song==song_df.title)&(df.artist==song_df.artist_name),
'inner')` (etl.py lines 147-150): each joined row is the pair of the
(post-filter, timestamp-converted) log row and the raw catalog row. -/
def joinSongplays (df : List LogRecord) (songDf : List SongRecord) :
    List (LogRecord × SongRecord) :=
  (filterNextSong df).flatMap fun e => (matchingSongs e songDf).map fun s => (e, s)

structure SongplayRow where
  songplay_id : Nat
  start_time : Nat
  month : Nat
  year : Nat
  user_id : String
  level : String
  song_id : String
  artist_id : String
  session_id : Int
  location : String
  user_agent : String
deriving DecidableEq

/-- The `selectExpr` projection of etl.py lines 155-165, applied to a joined
row that has been assigned `songplay_id = i`.  `extract(month from ts)` /
`extract(year from ts)` read the calendar field of the `ts` timestamp. -/
def mkSongplayRow (i : Nat) (pr : LogRecord × SongRecord) : SongplayRow :=
  { songplay_id := i
    start_time := tsTimestampMillis pr.1
    month := (tsDate pr.1).month
    year := (tsDate pr.1).year
    user_id := pr.1.userId
    level := pr.1.level
    song_id := pr.2.song_id
    artist_id := pr.2.artist_id
    session_id := pr.1.sessionId
    location := pr.1.location
    user_agent := pr.1.userAgent }

/-- `songplay_table` (etl.py lines 153-165): full-row `distinct()` on the
joined rows, then `monotonically_increasing_id()` (here: the position in
the single surviving partition), then the `selectExpr` projection. -/
def songplay_table (df : List LogRecord) (songDf : List SongRecord) :
    List SongplayRow :=
  ((joinSongplays df songDf).dedup.enum).map fun p => mkSongplayRow p.1 p.2

/-! ## monotonically_increasing_id over parallel partitions

Spark's `monotonically_increasing_id()` assigns, to the record at offset
`i` of partition `p`, the id `p * 2^33 + i`; it requires fewer than `2^33`
records per partition.  `songplay_table` above is the one-partition
instance; the partitioned form is needed to state the uniqueness and
partition-local monotonicity of `songplay_id`. -/

def monoIdsAux {α : Type} (p : Nat) : List (List α) → List (List (Nat × α))
  | [] => []
  | part :: rest =>
      (part.enum.map fun ix => (p * 2 ^ 33 + ix.1, ix.2)) :: monoIdsAux (p + 1) rest

def monotonicallyIncreasingIds {α : Type} (parts : List (List α)) :
    List (List (Nat × α)) :=
  monoIdsAux 0 parts

/-! ## PartitionedWriter calls

Each `write.mode('overwrite')[.partitionBy(...)].parquet(os.path.join(...))`
call is modelled by a `WriteCall` value recording the destination path, the
write mode and the partition columns. -/

/-- Whether a path string already ends with the separator `'/'`. -/
def endsWithSlash (s : String) : Bool := s.data.getLast? == some '/'

/-- `os.path.join(base, a, b)` for the shapes occurring in etl.py:
components `a`, `b` are non-empty relative names not starting with the
separator, so a separator is inserted wherever one is missing. -/
def pathJoin (base a b : String) : String :=
  (if endsWithSlash base then base else base ++ "/") ++ a ++ "/" ++ b

structure WriteCall where
  path : String
  mode : String
  partitionColumns : List String
deriving DecidableEq

/-- etl.py line 59. -/
def songsWrite (out : String) : WriteCall :=
  ⟨pathJoin out "songs_table" "songs_table.parquet", "overwrite", ["year", "artist_id"]⟩

/-- etl.py line 78. -/
def artistsWrite (out : String) : WriteCall :=
  ⟨pathJoin out "artists_table" "artists_table.parquet", "overwrite", []⟩

/-- etl.py line 117. -/
def usersWrite (out : String) : WriteCall :=
  ⟨pathJoin out "users_table" "users_table.parquet", "overwrite", []⟩

/-- etl.py line 142. -/
def timeWrite (out : String) : WriteCall :=
  ⟨pathJoin out "time_table" "time.parquet", "overwrite", ["year", "month"]⟩

/-- etl.py line 169. -/
def songplaysWrite (out : String) : WriteCall :=
  ⟨pathJoin out "songplays_table" "songsplay.parquet", "overwrite", ["year", "month"]⟩

/-- The five write calls of one run, in the order `main` performs them. -/
def pipelineWrites (out : String) : List WriteCall :=
  [songsWrite out, artistsWrite out, usersWrite out, timeWrite out, songplaysWrite out]

/-- Modelled from the spec's words, for comparison with the code's paths:
the claimed convention `\x7boutput_root\x7d/\x7btable_name\x7d/\x7btable_name\x7d.parquet/`. -/
def conventionPath (out name : String) : String :=
  pathJoin out name (name ++ ".parquet")

/-! ## Write order and failure propagation

`main` runs `process_song_data` (which writes songs, then artists) and then
`process_log_data` (users, then time, then songplays).  A raised write
error aborts everything after it; the writes already performed stay in
place.  `runPipeline fails` returns the list of tables actually written
when `fails` says which write raises. -/

inductive TableName
  | songs
  | artists
  | users
  | time
  | songplays
deriving DecidableEq

def writeOrder : List TableName :=
  [.songs, .artists, .users, .time, .songplays]

def runWritesFrom (fails : TableName → Bool) : List TableName → List TableName
  | [] => []
  | t :: rest => if fails t then [] else t :: runWritesFrom fails rest

def runPipeline (fails : TableName → Bool) : List TableName :=
  runWritesFrom fails writeOrder

/-! ## Concrete records (the specification's test scenario)

Catalog record S1 "Helix" by "Orbit", the matching log event, a
case-mismatching log event, and some variants used to exercise
deduplication and duplicate-catalog behaviour. -/

def songHelix : SongRecord :=
  ⟨"S1", "Helix", "A1", 2018, 218, "Orbit", "NY", none, none⟩

/-- Same `song_id` as `songHelix` but different content: a duplicate key. -/
def songAltS1 : SongRecord :=
  ⟨"S1", "Spiral", "A1", 2017, 200, "Orbit", "NY", none, none⟩

/-- Same `(title, artist_name)` as `songHelix` but a different `song_id`. -/
def songHelix2 : SongRecord :=
  ⟨"S2", "Helix", "A9", 2012, 190, "Orbit", "LA", none, none⟩

def logHelix : LogRecord :=
  ⟨"NextSong", "42", "Ann", "Lee", "F", "free", 1541121934796,
   "Helix", "Orbit", 7, "NY", "UA1"⟩

/-- Case-mismatched artist: `"orbit"` instead of `"Orbit"`. -/
def logHelixLower : LogRecord :=
  ⟨"NextSong", "42", "Ann", "Lee", "F", "free", 1541121934796,
   "Helix", "orbit", 7, "NY", "UA1"⟩

/-- A non-play event (`page = "Home"`). -/
def logHome : LogRecord :=
  ⟨"Home", "43", "Bob", "Kim", "M", "paid", 1541121934796,
   "", "", 8, "SF", "UA2"⟩

end Etl

namespace Etl

/-! ## Helper lemmas -/

theorem dedupByKey_cons {α κ : Type} [DecidableEq κ] (key : α → κ) (x : α) (xs : List α) :
    dedupByKey key (x :: xs) =
      x :: dedupByKey key (xs.filter fun y => decide (key y ≠ key x)) := by
  rw [dedupByKey]

theorem mem_of_mem_dedupByKey {α κ : Type} [DecidableEq κ] (key : α → κ) (l : List α) :
    ∀ x ∈ dedupByKey key l, x ∈ l := by
  induction l using dedupByKey.induct key with
  | case1 => intro x hx; exact absurd hx (by simp [dedupByKey])
  | case2 a as ih =>
    intro x hx
    rw [dedupByKey_cons] at hx
    rcases List.mem_cons.mp hx with rfl | hx
    · exact List.mem_cons_self _ _
    · exact List.mem_cons_of_mem _ (List.mem_of_mem_filter (ih x hx))

theorem countP_dedupByKey_of_mem {α κ : Type} [DecidableEq κ] (key : α → κ) (k : κ)
    (l : List α) :
    k ∈ l.map key →
      ((dedupByKey key l).countP fun x => decide (key x = k)) = 1 := by
  induction l using dedupByKey.induct key with
  | case1 => intro h; simp at h
  | case2 a as ih =>
    intro h
    rw [dedupByKey_cons]
    by_cases hk : key a = k
    · rw [List.countP_cons_of_pos _ _ (by simpa using hk)]
      have hzero : ((dedupByKey key (as.filter fun y => decide (key y ≠ key a))).countP
          fun x => decide (key x = k)) = 0 := by
        rw [List.countP_eq_zero]
        intro x hx
        have hmem := mem_of_mem_dedupByKey key _ x hx
        have hne := List.of_mem_filter hmem
        simp only [decide_eq_true_eq] at hne ⊢
        exact fun hxk => hne (hxk.trans hk.symm)
      rw [hzero]
    · rw [List.countP_cons_of_neg _ _ (by simpa using hk)]
      apply ih
      rcases List.mem_map.mp h with ⟨y, hy, hyk⟩
      rcases List.mem_cons.mp hy with rfl | hy'
      · exact absurd hyk hk
      · refine List.mem_map.mpr ⟨y, List.mem_filter.mpr ⟨hy', ?_⟩, hyk⟩
        simp only [decide_eq_true_eq]
        exact fun hya => hk (hya ▸ hyk)

theorem filterNextSong_insert (l1 l2 : List LogRecord) (r : LogRecord)
    (h : r.page ≠ "NextSong") :
    filterNextSong (l1 ++ r :: l2) = filterNextSong (l1 ++ l2) := by
  simp [filterNextSong, List.filter_append, List.filter_cons, h]

/-! ## Claim theorems -/

/-- C4: for every input set of song records and every song_id occurring in
it, the songs output contains exactly one row with that song_id, and any
such row is the projection of one of the input records bearing that
song_id (the survivor is some element of the group). -/
theorem C4_songs_unique_by_song_id (records : List SongRecord) (sid : String)
    (h : sid ∈ records.map SongRecord.song_id) :
    ((songs_table records).countP fun row => decide (row.song_id = sid)) = 1 ∧
    ∀ row ∈ songs_table records, row.song_id = sid →
      ∃ rec ∈ records, rec.song_id = sid ∧ row = projSong rec := by
  constructor
  · apply countP_dedupByKey_of_mem
    rw [List.map_map]
    exact h
  · intro row hrow hsid
    have hmem := mem_of_mem_dedupByKey _ _ row hrow
    rcases List.mem_map.mp hmem with ⟨rec, hrec, rfl⟩
    exact ⟨rec, hrec, hsid, rfl⟩

theorem C4_witness :
    ((songs_table [songHelix, songAltS1]).countP
        fun row => decide (row.song_id = "S1")) = 1 ∧
    ∀ row ∈ songs_table [songHelix, songAltS1], row.song_id = "S1" →
      ∃ rec ∈ [songHelix, songAltS1], rec.song_id = "S1" ∧ row = projSong rec :=
  C4_songs_unique_by_song_id [songHelix, songAltS1] "S1" (by decide)

/-- C3: a log record whose page is not "NextSong" contributes nothing to the
users, time, or songplays outputs: inserting such a record anywhere in the
input leaves all three outputs unchanged. -/
theorem C3_non_nextsong_excluded (l1 l2 : List LogRecord) (songDf : List SongRecord)
    (r : LogRecord) (h : r.page ≠ "NextSong") :
    users_table (l1 ++ r :: l2) = users_table (l1 ++ l2) ∧
    time_table (l1 ++ r :: l2) = time_table (l1 ++ l2) ∧
    songplay_table (l1 ++ r :: l2) songDf = songplay_table (l1 ++ l2) songDf := by
  have hf := filterNextSong_insert l1 l2 r h
  exact ⟨by simp [users_table, hf], by simp [time_table, hf],
         by simp [songplay_table, joinSongplays, hf]⟩

theorem C3_witness :
    users_table ([logHelix] ++ logHome :: []) = users_table ([logHelix] ++ []) ∧
    time_table ([logHelix] ++ logHome :: []) = time_table ([logHelix] ++ []) ∧
    songplay_table ([logHelix] ++ logHome :: []) [songHelix] =
      songplay_table ([logHelix] ++ []) [songHelix] :=
  C3_non_nextsong_excluded [logHelix] [] [songHelix] logHome (by decide)

/-- C6: the time output has exactly one row per retained (post-filter)
event, each row is the derived row of some retained event, and there is no
deduplication by start_time: for every timestamp value, the number of time
rows carrying it equals the number of retained events carrying it. -/
theorem C6_time_one_row_per_event (df : List LogRecord) (t : Nat) :
    (time_table df).length = (filterNextSong df).length ∧
    ((time_table df).countP fun row => decide (row.start_time = t)) =
      ((filterNextSong df).countP fun e => decide (e.ts = t)) ∧
    ∀ row ∈ time_table df, ∃ e ∈ filterNextSong df, row = mkTimeRow e := by
  refine ⟨by simp [time_table], ?_, ?_⟩
  · rw [time_table, List.countP_map]
    rfl
  · intro row hrow
    rcases List.mem_map.mp hrow with ⟨e, he, rfl⟩
    exact ⟨e, he, rfl⟩

theorem C6_witness :
    (∃ e ∈ filterNextSong [logHelix], mkTimeRow logHelix = mkTimeRow e) ∧
    ((time_table [logHelix, logHelixLower]).countP
        fun row => decide (row.start_time = 1541121934796)) = 2 :=
  ⟨(C6_time_one_row_per_event [logHelix] 0).2.2 (mkTimeRow logHelix) (by decide),
   by decide⟩

/-- C2 (code evaluated at the failing input): for the retained event with
ts = 1541121934796 ms, the code's time row has day/week/month/year/weekday
matching the UTC calendar of the instant (2018-11-02, ISO week 44, Friday),
but its hour is 0 — the code computes `hour` from the `to_date` column, a
date, which casts to midnight — while the instant's calendar hour is 1; and
its start_time keeps the fractional second (epoch ms 1541121934796) rather
than being the truncated epoch second 1541121934. -/
theorem C2_hour_bug_at_pinned_ts :
    mkTimeRow logHelix =
      { start_time := 1541121934796, dt := ⟨2018, 11, 2⟩, hour := 0, day := 2,
        week := 44, month := 11, year := 2018, weekday := 6 } ∧
    hourOfInstant (1541121934796 / 1000) = 1 ∧
    (mkTimeRow logHelix).hour ≠ hourOfInstant ((mkTimeRow logHelix).start_time / 1000) ∧
    (mkTimeRow logHelix).start_time ≠ 1541121934 * 1000 := by
  decide

/-- C7 counterexample: the claim's path convention
`\x7boutput_root\x7d/\x7btable\x7d/\x7btable\x7d.parquet/` fails for the time and songplays
tables: their leaf parquet directory names are `time.parquet` and
`songsplay.parquet`, not the table directory names. -/
theorem C7_counterexample :
    (timeWrite "s3a://dend-cda/output/").path ≠
      conventionPath "s3a://dend-cda/output/" "time_table" ∧
    (songplaysWrite "s3a://dend-cda/output/").path ≠
      conventionPath "s3a://dend-cda/output/" "songplays_table" := by
  decide

/-- C7 (amended): songs, artists and users follow the
`\x7boutput_root\x7d/\x7btable\x7d/\x7btable\x7d.parquet` convention; the time table is
written to `\x7boutput_root\x7d/time_table/time.parquet` and songplays to
`\x7boutput_root\x7d/songplays_table/songsplay.parquet`; every write is a full
overwrite of its destination. -/
theorem C7_amended_paths (out : String) :
    (songsWrite out).path = conventionPath out "songs_table" ∧
    (artistsWrite out).path = conventionPath out "artists_table" ∧
    (usersWrite out).path = conventionPath out "users_table" ∧
    (timeWrite out).path = pathJoin out "time_table" "time.parquet" ∧
    (songplaysWrite out).path = pathJoin out "songplays_table" "songsplay.parquet" ∧
    ∀ w ∈ pipelineWrites out, w.mode = "overwrite" := by
  refine ⟨rfl, rfl, rfl, rfl, rfl, ?_⟩
  intro w hw
  simp only [pipelineWrites, List.mem_cons, List.not_mem_nil, or_false] at hw
  rcases hw with rfl | rfl | rfl | rfl | rfl <;> rfl

theorem C7_witness :
    (songsWrite "s3a://dend-cda/output/").path =
      conventionPath "s3a://dend-cda/output/" "songs_table" ∧
    (timeWrite "s3a://dend-cda/output/").mode = "overwrite" :=
  ⟨(C7_amended_paths "s3a://dend-cda/output/").1,
   (C7_amended_paths "s3a://dend-cda/output/").2.2.2.2.2 _ (by decide)⟩

end Etl

namespace Etl

/-! ## Join lemmas -/

theorem countP_eq_one_of_nodup {α : Type} [DecidableEq α] {l : List α} (hl : l.Nodup)
    {a : α} (ha : a ∈ l) :
    (l.countP fun x => decide (x = a)) = 1 := by
  induction l with
  | nil => exact absurd ha (List.not_mem_nil _)
  | cons x xs ih =>
    by_cases hxa : x = a
    · subst hxa
      rw [List.countP_cons_of_pos _ _ (by simp)]
      have hz : (xs.countP fun y => decide (y = x)) = 0 := by
        rw [List.countP_eq_zero]
        intro y hy
        simp only [decide_eq_true_eq]
        exact fun h => (List.nodup_cons.mp hl).1 (h ▸ hy)
      rw [hz]
    · rw [List.countP_cons_of_neg _ _ (by simp [hxa])]
      rcases List.mem_cons.mp ha with h | ha'
      · exact absurd h.symm hxa
      · exact ih (List.nodup_cons.mp hl).2 ha'

theorem mem_snd_of_mem_enum {α : Type} {l : List α} {x : Nat × α} (h : x ∈ l.enum) :
    x.2 ∈ l :=
  List.getElem?_mem (List.mem_enum_iff_getElem?.mp h)

theorem mem_joinSongplays (df : List LogRecord) (songDf : List SongRecord)
    (pr : LogRecord × SongRecord) :
    pr ∈ joinSongplays df songDf ↔
      pr.1 ∈ filterNextSong df ∧ pr.2 ∈ songDf ∧
        pr.1.song = pr.2.title ∧ pr.1.artist = pr.2.artist_name := by
  constructor
  · intro h
    rcases List.mem_flatMap.mp h with ⟨e, he, hpr⟩
    rcases List.mem_map.mp hpr with ⟨s, hs, rfl⟩
    simp only [matchingSongs, List.mem_filter, decide_eq_true_eq, joinMatch] at hs
    exact ⟨he, hs.1, hs.2.1, hs.2.2⟩
  · rintro ⟨he, hs, h1, h2⟩
    refine List.mem_flatMap.mpr ⟨pr.1, he, ?_⟩
    refine List.mem_map.mpr ⟨pr.2, ?_, Prod.mk.eta⟩
    exact List.mem_filter.mpr ⟨hs, by simp [joinMatch, h1, h2]⟩

/-- C1: the songplays fact table comes from an inner join of the
post-filter log events against the raw song catalog under exact,
case-sensitive equality of `log.song = catalog.title` and
`log.artist = catalog.artist_name`: joined pairs are exactly the matching
pairs; an event with no matching catalog record contributes zero rows; an
event with exactly one matching catalog record contributes exactly one
row; and every output row carries its event's user_id, level, session_id,
location, user_agent and its catalog record's song_id and artist_id. -/
theorem C1_songplays_inner_join (df : List LogRecord) (songDf : List SongRecord)
    (e : LogRecord) :
    (∀ pr : LogRecord × SongRecord, pr ∈ joinSongplays df songDf ↔
        pr.1 ∈ filterNextSong df ∧ pr.2 ∈ songDf ∧
          pr.1.song = pr.2.title ∧ pr.1.artist = pr.2.artist_name) ∧
    (matchingSongs e songDf = [] →
      ((joinSongplays df songDf).dedup.countP fun pr => decide (pr.1 = e)) = 0) ∧
    (∀ s : SongRecord, e ∈ filterNextSong df → matchingSongs e songDf = [s] →
      ((joinSongplays df songDf).dedup.countP fun pr => decide (pr.1 = e)) = 1) ∧
    (∀ row ∈ songplay_table df songDf, ∃ ev sr, ev ∈ filterNextSong df ∧ sr ∈ songDf ∧
        ev.song = sr.title ∧ ev.artist = sr.artist_name ∧
        row.user_id = ev.userId ∧ row.level = ev.level ∧ row.session_id = ev.sessionId ∧
        row.location = ev.location ∧ row.user_agent = ev.userAgent ∧
        row.song_id = sr.song_id ∧ row.artist_id = sr.artist_id ∧
        row.start_time = ev.ts) := by
  refine ⟨mem_joinSongplays df songDf, ?_, ?_, ?_⟩
  · intro hempty
    rw [List.countP_eq_zero]
    intro pr hpr
    have hjoin := (mem_joinSongplays df songDf pr).mp (List.mem_dedup.mp hpr)
    simp only [decide_eq_true_eq]
    intro hfst
    have : pr.2 ∈ matchingSongs e songDf := by
      refine List.mem_filter.mpr ⟨hjoin.2.1, ?_⟩
      simp [joinMatch, ← hfst, hjoin.2.2.1, hjoin.2.2.2]
    rw [hempty] at this
    exact absurd this (List.not_mem_nil _)
  · intro s he hone
    have hs : s ∈ matchingSongs e songDf := hone ▸ List.mem_cons_self _ _
    have hs' := List.mem_filter.mp hs
    simp only [decide_eq_true_eq, joinMatch] at hs'
    have hmem : (e, s) ∈ (joinSongplays df songDf).dedup :=
      List.mem_dedup.mpr ((mem_joinSongplays df songDf (e, s)).mpr
        ⟨he, hs'.1, hs'.2.1, hs'.2.2⟩)
    have hcongr : ((joinSongplays df songDf).dedup.countP fun pr => decide (pr.1 = e)) =
        ((joinSongplays df songDf).dedup.countP fun pr => decide (pr = (e, s))) := by
      apply List.countP_congr
      intro pr hpr
      have hjoin := (mem_joinSongplays df songDf pr).mp (List.mem_dedup.mp hpr)
      simp only [decide_eq_true_eq]
      constructor
      · intro hfst
        have hsnd : pr.2 ∈ matchingSongs e songDf := by
          refine List.mem_filter.mpr ⟨hjoin.2.1, ?_⟩
          simp [joinMatch, ← hfst, hjoin.2.2.1, hjoin.2.2.2]
        rw [hone, List.mem_singleton] at hsnd
        exact Prod.ext hfst hsnd
      · intro hpr'; rw [hpr']
    rw [hcongr]
    exact countP_eq_one_of_nodup (List.nodup_dedup _) hmem
  · intro row hrow
    rcases List.mem_map.mp hrow with ⟨ip, hip, rfl⟩
    have hpr := List.mem_dedup.mp (mem_snd_of_mem_enum hip)
    have hjoin := (mem_joinSongplays df songDf ip.2).mp hpr
    exact ⟨ip.2.1, ip.2.2, hjoin.1, hjoin.2.1, hjoin.2.2.1, hjoin.2.2.2,
      rfl, rfl, rfl, rfl, rfl, rfl, rfl, rfl⟩

theorem C1_witness :
    ((joinSongplays [logHelix] [songHelix]).dedup.countP
        fun pr => decide (pr.1 = logHelix)) = 1 ∧
    ((joinSongplays [logHelixLower] [songHelix]).dedup.countP
        fun pr => decide (pr.1 = logHelixLower)) = 0 :=
  ⟨(C1_songplays_inner_join [logHelix] [songHelix] logHelix).2.2.1 songHelix
      (by decide) (by decide),
   (C1_songplays_inner_join [logHelixLower] [songHelix] logHelixLower).2.1 (by decide)⟩

/-- C9: the join reads the raw, un-deduplicated song catalog, so a single
retained log event matching several catalog records that differ in
song_id yields one fact row per matching catalog record: the number of
distinct joined rows for the event equals the number of matching catalog
records, and the projection to the songplays output keeps them all. -/
theorem C9_duplicate_catalog (df : List LogRecord) (songDf : List SongRecord)
    (e : LogRecord) (he : e ∈ filterNextSong df)
    (hids : ((matchingSongs e songDf).map SongRecord.song_id).Nodup) :
    ((joinSongplays df songDf).dedup.countP fun pr => decide (pr.1 = e)) =
      (matchingSongs e songDf).length ∧
    (songplay_table df songDf).length = (joinSongplays df songDf).dedup.length := by
  constructor
  · rw [List.countP_eq_length_filter]
    set F := (joinSongplays df songDf).dedup.filter fun pr => decide (pr.1 = e) with hF
    have hFnodup : F.Nodup := (List.nodup_dedup _).filter _
    have hFmem : ∀ pr ∈ F, pr.1 = e ∧ pr.2 ∈ matchingSongs e songDf := by
      intro pr hpr
      have h1 := List.mem_filter.mp hpr
      have hfst : pr.1 = e := by simpa using h1.2
      have hjoin := (mem_joinSongplays df songDf pr).mp (List.mem_dedup.mp h1.1)
      refine ⟨hfst, List.mem_filter.mpr ⟨hjoin.2.1, ?_⟩⟩
      simp [joinMatch, ← hfst, hjoin.2.2.1, hjoin.2.2.2]
    have hsndnodup : (F.map Prod.snd).Nodup := by
      refine List.Nodup.map_on ?_ hFnodup
      intro x hx y hy hxy
      exact Prod.ext (((hFmem x hx).1).trans ((hFmem y hy).1).symm) hxy
    have hmemiff : ∀ s, s ∈ F.map Prod.snd ↔ s ∈ matchingSongs e songDf := by
      intro s
      constructor
      · intro hs
        rcases List.mem_map.mp hs with ⟨pr, hpr, rfl⟩
        exact (hFmem pr hpr).2
      · intro hs
        have hs' := List.mem_filter.mp hs
        simp only [decide_eq_true_eq, joinMatch] at hs'
        have : (e, s) ∈ F := by
          refine List.mem_filter.mpr ⟨List.mem_dedup.mpr ?_, by simp⟩
          exact (mem_joinSongplays df songDf (e, s)).mpr ⟨he, hs'.1, hs'.2.1, hs'.2.2⟩
        exact List.mem_map.mpr ⟨(e, s), this, rfl⟩
    have hperm : (F.map Prod.snd).Perm (matchingSongs e songDf) :=
      (List.perm_ext_iff_of_nodup hsndnodup (hids.of_map _)).mpr hmemiff
    calc F.length = (F.map Prod.snd).length := (List.length_map _ _).symm
      _ = (matchingSongs e songDf).length := hperm.length_eq
  · simp [songplay_table]

theorem C9_witness :
    ((joinSongplays [logHelix] [songHelix, songHelix2]).dedup.countP
        fun pr => decide (pr.1 = logHelix)) =
      (matchingSongs logHelix [songHelix, songHelix2]).length ∧
    (songplay_table [logHelix] [songHelix, songHelix2]).length =
      (joinSongplays [logHelix] [songHelix, songHelix2]).dedup.length :=
  C9_duplicate_catalog [logHelix] [songHelix, songHelix2] logHelix (by decide) (by decide)

/-! ## Lemmas about monotonically_increasing_id -/

theorem monoIdsAux_id_lb {α : Type} (p : Nat) (parts : List (List α)) :
    ∀ a ∈ ((monoIdsAux p parts).flatten).map Prod.fst, p * 2 ^ 33 ≤ a := by
  induction parts generalizing p with
  | nil => simp [monoIdsAux]
  | cons part rest ih =>
    intro a ha
    simp only [monoIdsAux, List.flatten_cons, List.map_append, List.mem_append] at ha
    rcases ha with ha | ha
    · rw [List.map_map] at ha
      rcases List.mem_map.mp ha with ⟨ix, hix, rfl⟩
      exact Nat.le_add_right _ _
    · exact le_trans (Nat.mul_le_mul_right _ (Nat.le_succ p)) (ih (p + 1) a ha)

theorem monoIdsAux_ids_nodup {α : Type} (p : Nat) (parts : List (List α))
    (hsize : ∀ part ∈ parts, part.length ≤ 2 ^ 33) :
    (((monoIdsAux p parts).flatten).map Prod.fst).Nodup := by
  induction parts generalizing p with
  | nil => simp [monoIdsAux]
  | cons part rest ih =>
    simp only [monoIdsAux, List.flatten_cons, List.map_append]
    rw [List.nodup_append]
    refine ⟨?_, ?_, ?_⟩
    · rw [List.map_map]
      have hc : (Prod.fst ∘ fun ix : Nat × α => (p * 2 ^ 33 + ix.1, ix.2)) =
          (fun i => p * 2 ^ 33 + i) ∘ Prod.fst := rfl
      rw [hc, ← List.map_map, List.enum_map_fst]
      exact List.Nodup.map (fun a b h => by omega) (List.nodup_range _)
    · exact ih (p + 1) fun q hq => hsize q (List.mem_cons_of_mem _ hq)
    · intro a ha hb
      have hub : a < (p + 1) * 2 ^ 33 := by
        rw [List.map_map] at ha
        rcases List.mem_map.mp ha with ⟨ix, hix, rfl⟩
        have : ix.1 < part.length := by
          have := List.mem_enum_iff_getElem?.mp hix
          exact (List.getElem?_eq_some_iff.mp this).1
        have hlen := hsize part (List.mem_cons_self _ _)
        simp only [Function.comp]
        calc p * 2 ^ 33 + ix.1 < p * 2 ^ 33 + 2 ^ 33 := by omega
          _ = (p + 1) * 2 ^ 33 := by ring
      have hlb := monoIdsAux_id_lb (p + 1) rest a hb
      omega

theorem monoIdsAux_pairwise {α : Type} (p : Nat) (parts : List (List α)) :
    ∀ q ∈ monoIdsAux p parts, (q.map Prod.fst).Pairwise (· < ·) := by
  induction parts generalizing p with
  | nil => simp [monoIdsAux]
  | cons part rest ih =>
    intro q hq
    rcases List.mem_cons.mp hq with rfl | hq'
    · rw [List.map_map]
      have hc : (Prod.fst ∘ fun ix : Nat × α => (p * 2 ^ 33 + ix.1, ix.2)) =
          (fun i => p * 2 ^ 33 + i) ∘ Prod.fst := rfl
      rw [hc, ← List.map_map, List.enum_map_fst]
      exact List.Pairwise.map _ (fun a b h => by omega) (List.pairwise_lt_range _)
    · exact ih (p + 1) q hq'

theorem monoIdsAux_snd {α : Type} (p : Nat) (parts : List (List α)) :
    ((monoIdsAux p parts).flatten).map Prod.snd = parts.flatten := by
  induction parts generalizing p with
  | nil => rfl
  | cons part rest ih =>
    simp only [monoIdsAux, List.flatten_cons, List.map_append, ih]
    congr 1
    rw [List.map_map]
    exact List.enum_map_snd part

/-- C5: songplay_id values are assigned, after the full-row distinct on the
joined rows, by `monotonically_increasing_id` over the partitions of the
distinct row set; provided each partition holds at most `2^33` records the
ids are unique across the whole output, strictly increasing within each
partition's local sequence (with no global-order or density guarantee),
and the rows they are attached to are exactly the distinct joined rows. -/
theorem C5_songplay_id_unique (df : List LogRecord) (songDf : List SongRecord)
    (parts : List (List (LogRecord × SongRecord)))
    (hparts : parts.flatten = (joinSongplays df songDf).dedup)
    (hsize : ∀ part ∈ parts, part.length ≤ 2 ^ 33) :
    (((monotonicallyIncreasingIds parts).flatten).map Prod.fst).Nodup ∧
    (∀ q ∈ monotonicallyIncreasingIds parts, (q.map Prod.fst).Pairwise (· < ·)) ∧
    ((monotonicallyIncreasingIds parts).flatten).map Prod.snd =
      (joinSongplays df songDf).dedup ∧
    ((joinSongplays df songDf).dedup).Nodup :=
  ⟨monoIdsAux_ids_nodup 0 parts hsize,
   fun q hq => monoIdsAux_pairwise 0 parts q hq,
   (monoIdsAux_snd 0 parts).trans hparts,
   List.nodup_dedup _⟩

theorem C5_witness :
    (((monotonicallyIncreasingIds [[(logHelix, songHelix)]]).flatten).map Prod.fst).Nodup ∧
    (∀ q ∈ monotonicallyIncreasingIds [[(logHelix, songHelix)]],
      (q.map Prod.fst).Pairwise (· < ·)) ∧
    ((monotonicallyIncreasingIds [[(logHelix, songHelix)]]).flatten).map Prod.snd =
      (joinSongplays [logHelix] [songHelix]).dedup ∧
    ((joinSongplays [logHelix] [songHelix]).dedup).Nodup :=
  C5_songplay_id_unique [logHelix] [songHelix] [[(logHelix, songHelix)]]
    (by decide) (by decide)

/-- C8: the partition columns are exactly songs → (year, artist_id),
artists → none, users → none, time → (year, month), songplays →
(year, month); and every songplays row's month and year are the calendar
month and year derived from its own start_time. -/
theorem C8_partition_columns (out : String) (df : List LogRecord)
    (songDf : List SongRecord) :
    (songsWrite out).partitionColumns = ["year", "artist_id"] ∧
    (artistsWrite out).partitionColumns = [] ∧
    (usersWrite out).partitionColumns = [] ∧
    (timeWrite out).partitionColumns = ["year", "month"] ∧
    (songplaysWrite out).partitionColumns = ["year", "month"] ∧
    ∀ row ∈ songplay_table df songDf,
      row.month = (civilFromDays (row.start_time / 1000 / 86400)).month ∧
      row.year = (civilFromDays (row.start_time / 1000 / 86400)).year := by
  refine ⟨rfl, rfl, rfl, rfl, rfl, ?_⟩
  intro row hrow
  rcases List.mem_map.mp hrow with ⟨ip, _, rfl⟩
  exact ⟨rfl, rfl⟩

theorem C8_witness :
    (mkSongplayRow 0 (logHelix, songHelix)).month =
      (civilFromDays ((mkSongplayRow 0 (logHelix, songHelix)).start_time / 1000 / 86400)).month ∧
    (mkSongplayRow 0 (logHelix, songHelix)).year =
      (civilFromDays ((mkSongplayRow 0 (logHelix, songHelix)).start_time / 1000 / 86400)).year :=
  (C8_partition_columns "s3a://dend-cda/output/" [logHelix] [songHelix]).2.2.2.2.2
    (mkSongplayRow 0 (logHelix, songHelix)) (by decide)

/-- C10: one run writes the five tables in the fixed order songs, artists,
users, time, songplays; when the write at position k raises (and the
earlier ones do not), exactly the tables strictly before position k have
been written and stay in place, and nothing after position k is written;
a fully successful run writes all five in that order. -/
theorem C10_write_order_on_failure (fails : TableName → Bool) (k : Nat)
    (hk : k < writeOrder.length)
    (hfail : fails (writeOrder.getD k .songs) = true)
    (hearlier : ∀ j, j < k → fails (writeOrder.getD j .songs) = false) :
    runPipeline fails = writeOrder.take k ∧
    runPipeline (fun _ => false) =
      [.songs, .artists, .users, .time, .songplays] := by
  constructor
  · have hk5 : k < 5 := hk
    have h0 : 0 < k → fails .songs = false := fun h => by
      simpa [writeOrder] using hearlier 0 h
    have h1 : 1 < k → fails .artists = false := fun h => by
      simpa [writeOrder] using hearlier 1 h
    have h2 : 2 < k → fails .users = false := fun h => by
      simpa [writeOrder] using hearlier 2 h
    have h3 : 3 < k → fails .time = false := fun h => by
      simpa [writeOrder] using hearlier 3 h
    interval_cases k <;> simp_all [runPipeline, runWritesFrom, writeOrder]
  · rfl

theorem C10_witness :
    runPipeline (fun t => decide (t = TableName.time)) = writeOrder.take 3 ∧
    runPipeline (fun _ => false) =
      [TableName.songs, .artists, .users, .time, .songplays] :=
  C10_write_order_on_failure (fun t => decide (t = TableName.time)) 3 (by decide)
    (by decide) (fun j hj => by interval_cases j <;> rfl)

end Etl
